import Mathlib

/-!
# PaperCache: verification of the core data plane

A shallow embedding of the PaperCache in-memory cache (the `paper-cache`
Rust crate) sufficient to settle the frozen claims about cache
construction, the object map and atomic status, `erase`, the policy
worker's eviction pass, the mini-stack sampler and the auto-policy
selector.

Modelling conventions:
* `u64` status counters are modelled as unbounded naturals.  Their wrap
  at `2^64` is unreachable in the scope of every claim (the counters
  are bounded by physical memory / operation counts), so no claim
  hinges on it.
* `ObjectSize` is `u32` in the source and the object size is produced
  by an `as` narrowing cast (`total_size`), which truncates; this wrap
  is observable (a value a few bytes short of 4 GiB wraps the computed
  size to 0), so object sizes carry an explicit `% 2^32`.
* `f64` statistics (miss ratios) and policy parameters are modelled as
  rationals; `f64::total_cmp` on such values coincides with the
  rational order.
* `Instant` time stamps are modelled as naturals (seconds); `Instant`
  ordering is the natural order.
* `DashMap` (the sharded concurrent hash map from hashed key to
  object) is modelled as an association list over hashed keys;
  `iter().next()` (used by `erase` to pick an arbitrary entry) takes
  the head of the list.
-/

namespace PaperCache

/-- `CacheError` from `src/error.rs`. -/
inductive CacheError where
  | internal
  | keyNotFound
  | zeroValueSize
  | exceedingValueSize
  | zeroCacheSize
  | emptyPolicies
  | configuredAutoPolicy
  | duplicatePolicies
  | unconfiguredPolicy
  | invalidPolicy
deriving DecidableEq, Repr

/-- `PaperPolicy` from `src/policy.rs`.  The `f64` parameters of `TwoQ`
and `SThreeFifo` are modelled as rationals. -/
inductive PaperPolicy where
  | auto
  | lfu
  | fifo
  | clock
  | lru
  | mru
  | twoQ (kIn kOut : ℚ)
  | sThreeFifo (ratio : ℚ)
deriving DecidableEq, Repr

/-- `PaperPolicy::is_auto`. -/
def PaperPolicy.isAuto : PaperPolicy → Bool
  | .auto => true
  | _ => false

/-- `get_policy_overhead` from `src/object/overhead.rs`: the constant
per-object byte overhead of each policy's stack bookkeeping. -/
def getPolicyOverhead : PaperPolicy → ℕ
  | .auto => 0
  | .lfu => 24 + 48 + 8 + 4
  | .fifo => 48 + 8
  | .clock => 48 + 8 + 1
  | .lru => 48 + 8
  | .mru => 48 + 8
  | .twoQ _ _ => 48 + 8 + 4
  | .sThreeFifo _ => 48 + 8 + 4 + 1

/-- `mem::size_of::<ExpireTime>()` where `ExpireTime = Option<Instant>`,
on the reference 64-bit Linux platform (an `Instant` is a 16-byte
`timespec` and the `Option` uses its niche). -/
def EXPIRE_TIME_SIZE : ℕ := 16

/-- `get_ttl_overhead` from `src/object/overhead.rs`: the size of an
`Option<Instant>` plus 48 bytes for the `BTreeMap` entry. -/
def getTtlOverhead : ℕ := EXPIRE_TIME_SIZE + 48

/-- Hashed keys (`HashedKey = u64`). -/
abbrev HashedKey := ℕ

/-- `Object<K, V>` from `src/object/mod.rs`: raw key, value, optional
expiry instant. -/
structure Object (K V : Type) where
  key : K
  data : V
  expiry : Option ℕ
deriving Repr

/-- `Object::new` (`src/object/mod.rs` lines 22–34): a TTL of
`None` or `Some(0)` yields no expiry, `Some(t)` with `t > 0` an expiry
of `now + t`. -/
def Object.new (now : ℕ) (key : K) (data : V) (ttl : Option ℕ) : Object K V :=
  { key := key
    data := data
    expiry :=
      match ttl with
      | none => none
      | some 0 => none
      | some t => some (now + t) }

/-- `Object::key_matches`. -/
def Object.keyMatches [DecidableEq K] (o : Object K V) (key : K) : Bool :=
  o.key = key

/-- `Object::is_expired`: true iff an expiry is set and it is not in
the future (`expiry <= now`). -/
def Object.isExpired (o : Object K V) (now : ℕ) : Bool :=
  match o.expiry with
  | none => false
  | some e => e ≤ now

/-- `Object::expires`: rewrite the expiry from a TTL, with the same
rule as construction. -/
def Object.expires (o : Object K V) (now : ℕ) (ttl : Option ℕ) : Object K V :=
  { o with
    expiry :=
      match ttl with
      | none => none
      | some 0 => none
      | some t => some (now + t) }

/-- The sizes reported by the `TypeSize` instances of the key and
value types (`key.get_size()` / `data.get_size()`). -/
structure SizeModel (K V : Type) where
  sizeK : K → ℕ
  sizeV : V → ℕ

/-- `Object::total_size` (`src/object/mod.rs` lines 47–57): key size
plus value size plus `mem::size_of::<ExpireTime>()`, narrowed to
`ObjectSize = u32` by an `as` cast (which truncates). -/
def Object.totalSize (sz : SizeModel K V) (o : Object K V) : ℕ :=
  (sz.sizeK o.key + sz.sizeV o.data + EXPIRE_TIME_SIZE) % 2 ^ 32

/-- `OverheadManager::base_size` (`src/object/overhead.rs` lines
26–38): the total size plus the TTL overhead when an expiry is set
(`u32` addition; kept under `% 2^32`). -/
def baseSize (sz : SizeModel K V) (o : Object K V) : ℕ :=
  (o.totalSize sz + if o.expiry.isSome then getTtlOverhead else 0) % 2 ^ 32

/-- `OverheadManager::total_size`: base size plus the active policy's
per-object overhead. -/
def overheadTotalSize (sz : SizeModel K V) (policy : PaperPolicy) (o : Object K V) : ℕ :=
  baseSize sz o + getPolicyOverhead policy

/-! ## The object map

`DashMap<HashedKey, Object<K, V>>` as an association list. -/

/-- The object map. -/
abbrev ObjectMap (K V : Type) := List (HashedKey × Object K V)

/-- `objects.get(&hashed_key)`: first entry with the given hashed key. -/
def mapGet? (m : ObjectMap K V) (h : HashedKey) : Option (Object K V) :=
  (m.find? fun e => e.1 = h).map Prod.snd

/-- `objects.insert(hashed_key, object)`: replace in place (returning
the previous object) or add a fresh entry. -/
def mapInsert (m : ObjectMap K V) (h : HashedKey) (o : Object K V) :
    ObjectMap K V × Option (Object K V) :=
  match m with
  | [] => ([(h, o)], none)
  | (k, v) :: rest =>
    if k = h then ((k, o) :: rest, some v)
    else
      let (m', old) := mapInsert rest h o
      ((k, v) :: m', old)

/-- `entry.remove()`: drop the first entry with the given hashed key. -/
def mapRemove (m : ObjectMap K V) (h : HashedKey) : ObjectMap K V :=
  match m with
  | [] => []
  | (k, v) :: rest => if k = h then rest else (k, v) :: mapRemove rest h

/-- The sum of the base sizes of all objects in the map (the value
`base_used_size` tracks). -/
def sumBaseSizes (sz : SizeModel K V) (m : ObjectMap K V) : ℕ :=
  (m.map fun e => baseSize sz e.2).sum

/-! ## The atomic status (`src/status.rs`) -/

/-- `AtomicStatus`: the atomic counters of the cache. -/
structure AtomicStatus where
  maxSize : ℕ
  baseUsedSize : ℕ
  numObjects : ℕ
  totalHits : ℕ
  totalGets : ℕ
  totalSets : ℕ
  totalDels : ℕ
  policies : List PaperPolicy
  policyIndex : ℕ
  isAutoPolicy : Bool
deriving DecidableEq, Repr

namespace AtomicStatus

/-- `AtomicStatus::used_size` (`src/status.rs` lines 206–213): the
reported used size under policy `p` is the base used size plus
`num_objects * get_policy_overhead(p)`. -/
def usedSize (s : AtomicStatus) (p : PaperPolicy) : ℕ :=
  s.baseUsedSize + s.numObjects * getPolicyOverhead p

/-- `AtomicStatus::policy`: the active policy
(`self.policies[self.policy_index]`; indexing a reachable status is
always in bounds, out-of-bounds is modelled by a default). -/
def policy (s : AtomicStatus) : PaperPolicy :=
  s.policies.getD s.policyIndex .auto

/-- `AtomicStatus::update_base_used_size`: `fetch_add` of a positive
delta, `fetch_sub` of the magnitude of a negative one (underflow is
unreachable: negative deltas only remove sizes previously added). -/
def updateBaseUsedSize (s : AtomicStatus) (delta : ℤ) : AtomicStatus :=
  if 0 ≤ delta then { s with baseUsedSize := s.baseUsedSize + delta.toNat }
  else { s with baseUsedSize := s.baseUsedSize - delta.natAbs }

/-- `AtomicStatus::incr_num_objects`. -/
def incrNumObjects (s : AtomicStatus) : AtomicStatus :=
  { s with numObjects := s.numObjects + 1 }

/-- `AtomicStatus::decr_num_objects` (`fetch_sub(1)`; only called
after an entry has been removed, so underflow is unreachable). -/
def decrNumObjects (s : AtomicStatus) : AtomicStatus :=
  { s with numObjects := s.numObjects - 1 }

/-- `AtomicStatus::incr_hits` (a hit also counts as a get). -/
def incrHits (s : AtomicStatus) : AtomicStatus :=
  { s with totalGets := s.totalGets + 1, totalHits := s.totalHits + 1 }

/-- `AtomicStatus::incr_misses`. -/
def incrMisses (s : AtomicStatus) : AtomicStatus :=
  { s with totalGets := s.totalGets + 1 }

/-- `AtomicStatus::incr_sets`. -/
def incrSets (s : AtomicStatus) : AtomicStatus :=
  { s with totalSets := s.totalSets + 1 }

/-- `AtomicStatus::incr_dels`. -/
def incrDels (s : AtomicStatus) : AtomicStatus :=
  { s with totalDels := s.totalDels + 1 }

/-- `AtomicStatus::exceeds_max_size`: whether a size strictly exceeds
the configured maximum. -/
def exceedsMaxSize (s : AtomicStatus) (size : ℕ) : Bool :=
  s.maxSize < size

end AtomicStatus

/-- `get_policy_index` (`src/status.rs` lines 350–366): position of
the policy in the configured list, `Internal` when absent. -/
def getPolicyIndex (policies : List PaperPolicy) (policy : PaperPolicy) :
    Except CacheError ℕ :=
  match policies.findIdx? fun configured => configured = policy with
  | some index => .ok index
  | none => .error .internal

/-- `AtomicStatus::new` (`src/status.rs` lines 167–199): an `Auto`
initial policy sets the auto flag and falls back to `Lfu` as the
stored active policy; the stored policy's index in the configured list
is then looked up (failing with `Internal` when it is absent). -/
def AtomicStatus.new (maxSize : ℕ) (policies : List PaperPolicy)
    (policy : PaperPolicy) : Except CacheError AtomicStatus :=
  match getPolicyIndex policies
      (if policy.isAuto then PaperPolicy.lfu else policy) with
  | .error e => .error e
  | .ok index =>
    .ok { maxSize := maxSize
          baseUsedSize := 0
          numObjects := 0
          totalHits := 0
          totalGets := 0
          totalSets := 0
          totalDels := 0
          policies := policies
          policyIndex := index
          isAutoPolicy := policy.isAuto }

/-- `AtomicStatus::set_policy` (`src/status.rs` lines 270–282). -/
def AtomicStatus.setPolicy (s : AtomicStatus) (policy : PaperPolicy) :
    Except CacheError AtomicStatus :=
  if policy.isAuto then .ok { s with isAutoPolicy := true }
  else
    match getPolicyIndex s.policies policy with
    | .error e => .error e
    | .ok index => .ok { s with policyIndex := index, isAutoPolicy := false }

/-- The `used_size` field of the `Status` snapshot built by
`AtomicStatus::try_to_status` (`src/status.rs` lines 311–347): the
used size computed at the policy active when the snapshot is taken
(the OS-dependent `rss`/`hwm` fields are outside this model). -/
def AtomicStatus.snapshotUsedSize (s : AtomicStatus) : ℕ :=
  s.usedSize s.policy

/-! ## `erase` and the foreground operations (`src/lib.rs`) -/

/-- `EraseKey` from `src/lib.rs`. -/
inductive EraseKey (K : Type) where
  | original (key : K) (hashed : HashedKey)
  | hashed (hashed : HashedKey)

/-- `erase` (`src/lib.rs` lines 636–684).  Given an original key it
verifies raw-key equality before removing (collision guard); given no
key (the eviction fallback) it picks an arbitrary remaining entry
(`iter().next()`, the head of the list) or fails with `Internal` on an
empty map.  On removal it subtracts the object's base size and
decrements the object count; a removed-but-expired object still yields
`KeyNotFound`. -/
def erase [DecidableEq K] (sz : SizeModel K V) (now : ℕ)
    (objects : ObjectMap K V) (status : AtomicStatus)
    (maybeKey : Option (EraseKey K)) :
    ObjectMap K V × AtomicStatus × Except CacheError (HashedKey × Object K V) :=
  let hashedKeyResult : Except CacheError HashedKey :=
    match maybeKey with
    | some (.original _ hashed) => .ok hashed
    | some (.hashed hashed) => .ok hashed
    | none =>
      match objects with
      | [] => .error .internal
      | entry :: _ => .ok entry.1
  match hashedKeyResult with
  | .error e => (objects, status, .error e)
  | .ok hashedKey =>
    match mapGet? objects hashedKey with
    | none => (objects, status, .error .keyNotFound)
    | some object =>
      let keyMismatch : Bool :=
        match maybeKey with
        | some (.original key _) => !object.keyMatches key
        | _ => false
      if keyMismatch then (objects, status, .error .keyNotFound)
      else
        let objects' := mapRemove objects hashedKey
        let base : ℤ := baseSize sz object
        let status' := (status.updateBaseUsedSize (-base)).decrNumObjects
        if object.isExpired now then (objects', status', .error .keyNotFound)
        else (objects', status', .ok (hashedKey, object))

/-- The cache's shared mutable state: the object map and the atomic
status (worker channels are outside this model; `broadcast` is
modelled as succeeding). -/
structure CacheState (K V : Type) where
  objects : ObjectMap K V
  status : AtomicStatus

/-- `PaperCache::get` (`src/lib.rs` lines 277–295): a present,
raw-key-matching, non-expired object is a hit; anything else is a miss
returning `KeyNotFound`. -/
def get [DecidableEq K] (hash : K → HashedKey) (now : ℕ)
    (c : CacheState K V) (key : K) : CacheState K V × Except CacheError V :=
  let hashedKey := hash key
  match mapGet? c.objects hashedKey with
  | some object =>
    if object.keyMatches key && !object.isExpired now then
      ({ c with status := c.status.incrHits }, .ok object.data)
    else ({ c with status := c.status.incrMisses }, .error .keyNotFound)
  | none => ({ c with status := c.status.incrMisses }, .error .keyNotFound)

/-- `PaperCache::peek`: like `get` but non-mutating. -/
def peek [DecidableEq K] (hash : K → HashedKey) (now : ℕ)
    (c : CacheState K V) (key : K) : Except CacheError V :=
  match mapGet? c.objects (hash key) with
  | some object =>
    if object.keyMatches key && !object.isExpired now then .ok object.data
    else .error .keyNotFound
  | none => .error .keyNotFound

/-- `PaperCache::has`. -/
def has [DecidableEq K] (hash : K → HashedKey) (now : ℕ)
    (c : CacheState K V) (key : K) : Bool :=
  match mapGet? c.objects (hash key) with
  | some object => object.keyMatches key && !object.isExpired now
  | none => false

/-- `PaperCache::size`: the object's total size (base plus the active
policy's overhead), or `KeyNotFound`. -/
def sizeOp [DecidableEq K] (sz : SizeModel K V) (hash : K → HashedKey) (now : ℕ)
    (c : CacheState K V) (key : K) : Except CacheError ℕ :=
  match mapGet? c.objects (hash key) with
  | some object =>
    if object.keyMatches key && !object.isExpired now then
      .ok (overheadTotalSize sz c.status.policy object)
    else .error .keyNotFound
  | none => .error .keyNotFound

/-- `PaperCache::ttl` (`src/lib.rs` lines 472–492): rewrite the expiry
of a present, matching, non-expired object, adjusting
`base_used_size` by the base-size delta. -/
def ttlOp [DecidableEq K] (sz : SizeModel K V) (hash : K → HashedKey) (now : ℕ)
    (c : CacheState K V) (key : K) (ttl : Option ℕ) :
    CacheState K V × Except CacheError Unit :=
  let hashedKey := hash key
  match mapGet? c.objects hashedKey with
  | some object =>
    if object.keyMatches key && !object.isExpired now then
      let oldBase : ℤ := baseSize sz object
      let object' := object.expires now ttl
      let newBase : ℤ := baseSize sz object'
      let objects' := (mapInsert c.objects hashedKey object').1
      let status' := c.status.updateBaseUsedSize (newBase - oldBase)
      ({ objects := objects', status := status' }, .ok ())
    else (c, .error .keyNotFound)
  | none => (c, .error .keyNotFound)

/-- `PaperCache::del` (`src/lib.rs` lines 375–389): `erase` with the
original key; only a successful erase increments `total_dels` (the
error from `erase` — including the removed-but-expired case — is
propagated before the increment, but `erase`'s state updates stand). -/
def del [DecidableEq K] (sz : SizeModel K V) (hash : K → HashedKey) (now : ℕ)
    (c : CacheState K V) (key : K) : CacheState K V × Except CacheError Unit :=
  let hashedKey := hash key
  let (objects', status', result) :=
    erase sz now c.objects c.status (some (.original key hashedKey))
  match result with
  | .ok _ => ({ objects := objects', status := status'.incrDels }, .ok ())
  | .error e => ({ objects := objects', status := status' }, .error e)

/-- `PaperCache::set` (`src/lib.rs` lines 316–354): construct the
object, compute its base size, reject a zero or over-max base size
without any side effect; otherwise count the set, insert (recording
any replaced object's base size), adjust `base_used_size` by the
delta, and count a new object. -/
def setOp [DecidableEq K] (sz : SizeModel K V) (hash : K → HashedKey) (now : ℕ)
    (c : CacheState K V) (key : K) (value : V) (ttl : Option ℕ) :
    CacheState K V × Except CacheError Unit :=
  let hashedKey := hash key
  let object := Object.new now key value ttl
  let base := baseSize sz object
  if base = 0 then (c, .error .zeroValueSize)
  else if c.status.exceedsMaxSize base then (c, .error .exceedingValueSize)
  else
    let status₁ := c.status.incrSets
    let (objects', oldObject) := mapInsert c.objects hashedKey object
    match oldObject with
    | some old =>
      let delta : ℤ := (base : ℤ) - baseSize sz old
      ({ objects := objects', status := status₁.updateBaseUsedSize delta }, .ok ())
    | none =>
      let status₂ := status₁.incrNumObjects
      ({ objects := objects',
         status := status₂.updateBaseUsedSize (base : ℤ) }, .ok ())

/-! ## Cache construction (`src/lib.rs` lines 163–215) -/

/-- `kwik`'s `Multiset::is_multiset` on an iterator (the `kwik` crate
is an external dependency, not under this repository's sources):
whether the sequence contains a repeated element, as exercised by the
crate's own tests (`[Lfu, Lru, Lfu]` is a multiset, `[Lfu, Lru]` is
not). -/
def isMultiset (policies : List PaperPolicy) : Bool :=
  decide ¬policies.Nodup

/-- `PaperCache::with_hasher` (`src/lib.rs` lines 163–215), up to the
construction of the `AtomicStatus`.  The remaining construction steps
(object map, overhead manager, worker manager, thread spawn) are
modelled from the spec: the spec's interface table lists no failure of
`new` besides the five validation errors, so they are modelled as
succeeding. -/
def withHasher (maxSize : ℕ) (policies : List PaperPolicy)
    (policy : PaperPolicy) : Except CacheError AtomicStatus :=
  if maxSize = 0 then .error .zeroCacheSize
  else if policies = [] then .error .emptyPolicies
  else if PaperPolicy.auto ∈ policies then .error .configuredAutoPolicy
  else if isMultiset policies then .error .duplicatePolicies
  else if !policy.isAuto && !(decide (policy ∈ policies)) then
    .error .unconfiguredPolicy
  else AtomicStatus.new maxSize policies policy

/-! ## The policy worker's eviction pass (`src/worker/policy/mod.rs`) -/

/-- `StackEvent` from `src/worker/policy/event.rs`. -/
inductive StackEvent where
  | get (key : HashedKey)
  | set (key : HashedKey) (size : ℕ)
  | del (key : HashedKey)
  | wipe
  | resize (size : ℕ)
deriving DecidableEq, Repr

/-- The accounting invariant of reachable states (spec §3):
`base_used_size` is the sum of the base sizes of the stored objects,
and `num_objects` is the map's cardinality. -/
def StatusInv (sz : SizeModel K V) (m : ObjectMap K V)
    (st : AtomicStatus) : Prop :=
  st.baseUsedSize = sumBaseSizes sz m ∧ st.numObjects = m.length

/-- `PolicyWorker::apply_evictions` in non-interim mode
(`src/worker/policy/mod.rs` lines 369–402): while the used size under
the current policy exceeds the maximum, pop a key from the active
stack (`none` when the stack is empty) and `erase` it — with no key,
`erase` falls back to an arbitrary remaining map entry.  A successful
erase records a synthetic `Del` stack event; an erase error is
swallowed and the loop continues.

The active policy stack is modelled by the stream of keys its `pop`
will deliver (each `pop` consumes one element).  The loop's possible
non-termination is modelled by fuel: `none` means the fuel ran out. -/
def applyEvictions [DecidableEq K] (sz : SizeModel K V) (now : ℕ)
    (policy : PaperPolicy) :
    ℕ → List HashedKey → ObjectMap K V → AtomicStatus → List StackEvent →
    Option (List HashedKey × ObjectMap K V × AtomicStatus × List StackEvent)
  | 0, _, _, _, _ => none
  | fuel + 1, stack, objects, status, events =>
    if status.maxSize < status.usedSize policy then
      match stack with
      | key :: rest =>
        applyEvictions sz now policy fuel rest
          (erase sz now objects status (some (.hashed key))).1
          (erase sz now objects status (some (.hashed key))).2.1
          (match (erase sz now objects status (some (.hashed key))).2.2 with
            | .ok (k, _) => events ++ [.del k]
            | .error _ => events)
      | [] =>
        applyEvictions sz now policy fuel []
          (erase sz now objects status none).1
          (erase sz now objects status none).2.1
          (match (erase sz now objects status none).2.2 with
            | .ok (k, _) => events ++ [.del k]
            | .error _ => events)
    else some (stack, objects, status, events)

/-! ## The mini-stack sampler and the auto-policy selector -/

/-- `MINI_SAMPLING_MODULUS` (`src/worker/policy/mod.rs` line 51). -/
def MINI_SAMPLING_MODULUS : ℕ := 16777216

/-- `MINI_SAMPLING_THRESHOLD` (`src/worker/policy/mod.rs` line 52). -/
def MINI_SAMPLING_THRESHOLD : ℕ := 16777

/-- `PolicyWorker::should_mini_sample` (`src/worker/policy/mod.rs`
lines 441–444): the bitmask test
`hashed_key & (MINI_SAMPLING_MODULUS - 1) < MINI_SAMPLING_THRESHOLD`. -/
def shouldMiniSample (hashedKey : HashedKey) : Bool :=
  hashedKey &&& (MINI_SAMPLING_MODULUS - 1) < MINI_SAMPLING_THRESHOLD

/-- The sampling predicate as the spec words it:
`hashed_key mod 2^24 < 16_777`. -/
def specSamplingPredicate (hashedKey : HashedKey) : Bool :=
  hashedKey % 2 ^ 24 < 16777

/-- The statistics of a `MiniStack` (`src/worker/policy/mini_stack.rs`)
relevant to policy selection: its policy and its sampled-stream
`count`/`hits` counters.  `MiniStack::is_policy` delegates to the
underlying stack, whose `is_policy` holds exactly for the policy the
stack was built from (parameters included), i.e. for the stored
`policy` field. -/
structure MiniStackStats where
  policy : PaperPolicy
  count : ℕ
  hits : ℕ
deriving DecidableEq, Repr

/-- `MiniStack::miss_ratio` (`src/worker/policy/mini_stack.rs` lines
45–50): `1 - hits / count`, and `1.0` for an empty count. -/
def missRatio (s : MiniStackStats) : ℚ :=
  if s.count = 0 then 1 else 1 - (s.hits : ℚ) / (s.count : ℚ)

/-- `f64::total_cmp` on (finite, rational-valued) miss ratios. -/
def cmpQ (a b : ℚ) : Ordering :=
  if a < b then .lt else if b < a then .gt else .eq

/-- `Ord::cmp` on the (natural-number) policy overheads. -/
def cmpOverhead (a b : ℕ) : Ordering :=
  if a < b then .lt else if b < a then .gt else .eq

/-- The comparator passed to `min_by` in
`PolicyWorker::get_optimal_policy`: miss ratio first, per-object
policy overhead on ties. -/
def optimalCmp (a b : MiniStackStats) : Ordering :=
  match cmpQ (missRatio a) (missRatio b) with
  | .eq => cmpOverhead (getPolicyOverhead a.policy) (getPolicyOverhead b.policy)
  | c => c

/-- Rust's `Iterator::min_by`: the first element that is minimal with
respect to the comparator (later elements replace the current best
only when strictly smaller). -/
def minBy? (cmp : α → α → Ordering) : List α → Option α
  | [] => none
  | x :: xs => some (xs.foldl (fun best y => if cmp y best = .lt then y else best) x)

/-- The lexicographic key `(miss ratio, policy overhead)` that
`optimalCmp` orders mini-stacks by. -/
def selectionKey (s : MiniStackStats) : ℚ ×ₗ ℕ :=
  toLex (missRatio s, getPolicyOverhead s.policy)

/-- `PolicyWorker::get_optimal_policy` (`src/worker/policy/mod.rs`
lines 466–501): find the current policy's mini-stack's miss ratio;
take the mini-stack minimal under `optimalCmp`; return its policy only
when its miss ratio strictly beats the current one. -/
def getOptimalPolicy (miniStacks : List MiniStackStats)
    (currentPolicy : PaperPolicy) : Option PaperPolicy :=
  match (miniStacks.find? fun ms => ms.policy = currentPolicy).map missRatio with
  | none => none
  | some currentMissRatio =>
    match minBy? optimalCmp miniStacks with
    | none => none
    | some optimal =>
      if missRatio optimal < currentMissRatio then some optimal.policy
      else none

/-! ## Small concrete instances used to instantiate theorems -/

/-- A size model with constant key/value sizes over natural-number
keys and unit values. -/
def constSizes (kSize vSize : ℕ) : SizeModel ℕ Unit :=
  ⟨fun _ => kSize, fun _ => vSize⟩

/-- A tiny hash with collisions (keys `1` and `5` collide). -/
def modHash (k : ℕ) : HashedKey := k % 4

/-- Three concrete mini-stacks: `Lfu` with miss ratio `1/2`, `Lru` and
`Mru` tied at miss ratio `1/5`. -/
def sampleMiniStacks : List MiniStackStats :=
  [⟨.lfu, 10, 5⟩, ⟨.lru, 10, 8⟩, ⟨.mru, 10, 8⟩]

/-- A small concrete status: a 100-byte cache configured with `Lfu`. -/
def sampleStatus : AtomicStatus :=
  { maxSize := 100
    baseUsedSize := 0
    numObjects := 0
    totalHits := 0
    totalGets := 0
    totalSets := 0
    totalDels := 0
    policies := [.lfu]
    policyIndex := 0
    isAutoPolicy := false }

/-- `sampleStatus` holding one object of base size 120 — over the
100-byte maximum. -/
def overfullStatus : AtomicStatus :=
  { sampleStatus with baseUsedSize := 120, numObjects := 1 }

/-! # Theorems -/

/-! ## Helper lemmas -/

/-- A successful `getPolicyIndex` yields an index whose entry is the
requested policy. -/
theorem getPolicyIndex_ok {policies : List PaperPolicy} {policy : PaperPolicy}
    {i : ℕ} (h : getPolicyIndex policies policy = .ok i) :
    i < policies.length ∧ policies.getD i .auto = policy := by
  unfold getPolicyIndex at h
  rcases hfi : policies.findIdx? (fun configured => configured = policy)
    with _ | j
  · rw [hfi] at h; exact absurd h (by simp)
  · rw [hfi] at h
    have hij : j = i := by simpa using h
    subst hij
    rw [List.findIdx?_eq_some_iff_findIdx_eq] at hfi
    obtain ⟨hlt, hidx⟩ := hfi
    refine ⟨hlt, ?_⟩
    rw [List.getD_eq_getElem _ _ hlt]
    subst hidx
    have := @List.findIdx_getElem _
      (fun configured => decide (configured = policy)) policies hlt
    simpa using this

/-- `getPolicyIndex` succeeds exactly on configured policies. -/
theorem getPolicyIndex_isOk {policies : List PaperPolicy}
    {policy : PaperPolicy} (h : policy ∈ policies) :
    ∃ i, getPolicyIndex policies policy = .ok i := by
  unfold getPolicyIndex
  rcases hfi : policies.findIdx? (fun configured => configured = policy)
    with _ | j
  · rw [List.findIdx?_eq_none_iff] at hfi
    exact absurd (hfi policy h) (by simp)
  · exact ⟨j, rfl⟩

/-- `getPolicyIndex` fails with `Internal` on an unconfigured policy. -/
theorem getPolicyIndex_error {policies : List PaperPolicy}
    {policy : PaperPolicy} (h : policy ∉ policies) :
    getPolicyIndex policies policy = .error .internal := by
  unfold getPolicyIndex
  rcases hfi : policies.findIdx? (fun configured => configured = policy)
    with _ | j
  · rfl
  · rw [List.findIdx?_eq_some_iff_findIdx_eq] at hfi
    obtain ⟨hlt, hidx⟩ := hfi
    have := @List.findIdx_getElem _
      (fun configured => decide (configured = policy)) policies (hidx ▸ hlt)
    simp only [decide_eq_true_eq] at this
    exact absurd (this ▸ List.getElem_mem _) h

/-! ## C7: the sampling bitmask coincides with the specified modulus -/

/-- C7.  The implemented sampling test
`hashed_key & (MINI_SAMPLING_MODULUS - 1) < MINI_SAMPLING_THRESHOLD`
equals the specified predicate `hashed_key mod 2^24 < 16_777` for every
hashed key, and the constants are `2^24` and `16_777`: the bitmask
optimization coincides with the modulus definition because the modulus
is a power of two. -/
theorem shouldMiniSample_eq_specSamplingPredicate :
    (∀ hashedKey : HashedKey,
      shouldMiniSample hashedKey = specSamplingPredicate hashedKey) ∧
    MINI_SAMPLING_MODULUS = 2 ^ 24 ∧ MINI_SAMPLING_THRESHOLD = 16777 := by
  refine ⟨fun hashedKey => ?_, by norm_num [MINI_SAMPLING_MODULUS], rfl⟩
  have hmod : MINI_SAMPLING_MODULUS - 1 = 2 ^ 24 - 1 := by
    norm_num [MINI_SAMPLING_MODULUS]
  simp only [shouldMiniSample, specSamplingPredicate, hmod,
    Nat.and_pow_two_sub_one_eq_mod, MINI_SAMPLING_THRESHOLD]

/-! ## C9: TTL and expiry semantics of objects -/

/-- C9.  Constructing an object with no TTL or a zero TTL yields no
expiry; a positive TTL `t` yields expiry `now + t`; `expires` rewrites
the expiry by the same rule; and `is_expired` holds iff an expiry is
set and is not in the future (`expiry ≤ now`). -/
theorem object_ttl_expiry_semantics (K V : Type) :
    (∀ (now : ℕ) (k : K) (v : V),
      (Object.new now k v none).expiry = none ∧
      (Object.new now k v (some 0)).expiry = none ∧
      ∀ t : ℕ, 0 < t → (Object.new now k v (some t)).expiry = some (now + t)) ∧
    (∀ (o : Object K V) (now : ℕ),
      (o.expires now none).expiry = none ∧
      (o.expires now (some 0)).expiry = none ∧
      ∀ t : ℕ, 0 < t → (o.expires now (some t)).expiry = some (now + t)) ∧
    (∀ (o : Object K V) (now : ℕ),
      o.isExpired now = true ↔ ∃ e, o.expiry = some e ∧ e ≤ now) := by
  refine ⟨fun now k v => ⟨rfl, rfl, fun t ht => ?_⟩,
    fun o now => ⟨rfl, rfl, fun t ht => ?_⟩, fun o now => ?_⟩
  · match t, ht with
    | t + 1, _ => rfl
  · match t, ht with
    | t + 1, _ => rfl
  · unfold Object.isExpired
    rcases o.expiry with _ | e <;> simp

/-! ## C4: the reported used size is affine in the policy overhead -/

/-- C4.  The used size reported by a status snapshot is
`base_used_size + num_objects * overhead(active policy)`, and changing
the active policy alone (to any configured non-auto policy, with no
map mutation) changes the reported used size by exactly
`num_objects * (overhead(new) - overhead(old))`. -/
theorem snapshotUsedSize_affine (st : AtomicStatus) :
    st.snapshotUsedSize
        = st.baseUsedSize + st.numObjects * getPolicyOverhead st.policy ∧
    ∀ p : PaperPolicy, p.isAuto = false → p ∈ st.policies →
      ∃ st', st.setPolicy p = .ok st' ∧
        st'.baseUsedSize = st.baseUsedSize ∧
        st'.numObjects = st.numObjects ∧
        st'.policy = p ∧
        (st'.snapshotUsedSize : ℤ) - (st.snapshotUsedSize : ℤ)
          = (st.numObjects : ℤ)
              * ((getPolicyOverhead p : ℤ) - (getPolicyOverhead st.policy : ℤ)) := by
  refine ⟨rfl, fun p hauto hmem => ?_⟩
  obtain ⟨i, hi⟩ := getPolicyIndex_isOk hmem
  obtain ⟨hlt, hget⟩ := getPolicyIndex_ok hi
  refine ⟨{ st with policyIndex := i, isAutoPolicy := false }, ?_, rfl, rfl,
    hget, ?_⟩
  · unfold AtomicStatus.setPolicy
    rw [hauto, hi]
    rfl
  · have h1 : AtomicStatus.snapshotUsedSize { st with policyIndex := i, isAutoPolicy := false } = st.baseUsedSize + st.numObjects * getPolicyOverhead p := by
      unfold AtomicStatus.snapshotUsedSize AtomicStatus.usedSize
      rw [show AtomicStatus.policy { st with policyIndex := i, isAutoPolicy := false } = p from hget]
    have h2 : st.snapshotUsedSize
        = st.baseUsedSize + st.numObjects * getPolicyOverhead st.policy := rfl
    rw [h1, h2]
    push_cast
    ring

/-- C4 witness: switching `sampleStatus` (active policy `Lfu`) to the
configured policy `Lfu` satisfies the conclusion. -/
theorem snapshotUsedSize_affine_witness :
    PaperPolicy.lfu.isAuto = false ∧ PaperPolicy.lfu ∈ sampleStatus.policies ∧
    ∃ st', sampleStatus.setPolicy .lfu = .ok st' ∧
      st'.baseUsedSize = sampleStatus.baseUsedSize ∧
      st'.numObjects = sampleStatus.numObjects ∧
      st'.policy = .lfu ∧
      (st'.snapshotUsedSize : ℤ) - (sampleStatus.snapshotUsedSize : ℤ)
        = (sampleStatus.numObjects : ℤ)
            * ((getPolicyOverhead .lfu : ℤ)
              - (getPolicyOverhead sampleStatus.policy : ℤ)) :=
  ⟨by decide, by decide,
    (snapshotUsedSize_affine sampleStatus).2 .lfu (by decide) (by decide)⟩

/-- C9 witness: a TTL of 3 at time 5 yields expiry 8. -/
theorem object_ttl_expiry_semantics_witness :
    0 < 3 ∧ (Object.new 5 () () (some 3) : Object Unit Unit).expiry = some 8 :=
  ⟨by decide,
    ((object_ttl_expiry_semantics Unit Unit).1 5 () ()).2.2 3 (by decide)⟩

/-! ## C2: construction validation -/

/-- C2 counterexample: constructing a cache with `max_size = 1000`,
configured policies `[Lru]` and initial policy `Auto` is, per the
claim, the "otherwise Ok" case (`Auto` passes every validation check),
yet construction fails: the auto initial policy falls back to `Lfu`
inside `AtomicStatus::new`, and `Lfu` is not configured, so the index
lookup fails with `Internal`. -/
theorem withHasher_auto_without_lfu_internal :
    withHasher 1000 [.lru] .auto = .error .internal := rfl

/-- C2 (amended).  Construction checks, in order: `ZeroCacheSize` when
`max_size = 0`; `EmptyPolicies` when `policies` is empty;
`ConfiguredAutoPolicy` when `Auto` is configured; `DuplicatePolicies`
when a policy repeats; `UnconfiguredPolicy` when the initial policy is
neither `Auto` nor configured; `Internal` when the initial policy is
`Auto` but `Lfu` (its fallback) is not configured; `Ok` otherwise. -/
theorem withHasher_spec (maxSize : ℕ) (policies : List PaperPolicy)
    (policy : PaperPolicy) :
    (withHasher maxSize policies policy = .error .zeroCacheSize ↔
      maxSize = 0) ∧
    (withHasher maxSize policies policy = .error .emptyPolicies ↔
      maxSize ≠ 0 ∧ policies = []) ∧
    (withHasher maxSize policies policy = .error .configuredAutoPolicy ↔
      maxSize ≠ 0 ∧ policies ≠ [] ∧ PaperPolicy.auto ∈ policies) ∧
    (withHasher maxSize policies policy = .error .duplicatePolicies ↔
      maxSize ≠ 0 ∧ policies ≠ [] ∧ PaperPolicy.auto ∉ policies ∧
        ¬policies.Nodup) ∧
    (withHasher maxSize policies policy = .error .unconfiguredPolicy ↔
      maxSize ≠ 0 ∧ policies ≠ [] ∧ PaperPolicy.auto ∉ policies ∧
        policies.Nodup ∧ policy.isAuto = false ∧ policy ∉ policies) ∧
    (withHasher maxSize policies policy = .error .internal ↔
      maxSize ≠ 0 ∧ policies ≠ [] ∧ PaperPolicy.auto ∉ policies ∧
        policies.Nodup ∧ policy.isAuto = true ∧ PaperPolicy.lfu ∉ policies) ∧
    ((∃ st, withHasher maxSize policies policy = .ok st) ↔
      maxSize ≠ 0 ∧ policies ≠ [] ∧ PaperPolicy.auto ∉ policies ∧
        policies.Nodup ∧
        ((policy.isAuto = true ∧ PaperPolicy.lfu ∈ policies) ∨
          (policy.isAuto = false ∧ policy ∈ policies))) := by
  unfold withHasher
  by_cases h1 : maxSize = 0
  · simp [h1]
  · rw [if_neg h1]
    by_cases h2 : policies = []
    · simp [h1, h2]
    · rw [if_neg h2]
      by_cases h3 : PaperPolicy.auto ∈ policies
      · simp [h1, h2, h3]
      · rw [if_neg h3]
        by_cases h4 : policies.Nodup
        · rw [if_neg (by simp [isMultiset, h4])]
          by_cases h5 : policy.isAuto
          · rw [if_neg (by simp [h5])]
            unfold AtomicStatus.new
            rw [if_pos (by simpa using h5)]
            by_cases h6 : PaperPolicy.lfu ∈ policies
            · obtain ⟨i, hi⟩ := getPolicyIndex_isOk h6
              rw [hi]
              simp [h1, h2, h3, h4, h5, h6]
            · rw [getPolicyIndex_error h6]
              simp [h1, h2, h3, h4, h5, h6]
          · by_cases h7 : policy ∈ policies
            · rw [if_neg (by simp [h5, h7])]
              unfold AtomicStatus.new
              rw [if_neg (by simpa using h5)]
              obtain ⟨i, hi⟩ := getPolicyIndex_isOk h7
              rw [hi]
              simp [h1, h2, h3, h4, h5, h7]
            · rw [if_pos (by simp [h5, h7])]
              simp [h1, h2, h3, h4, h5, h7]
        · rw [if_pos (by simp [isMultiset, h4])]
          simp [h1, h2, h3, h4]

/-! ## C3 and C10: `set` size validation -/

/-- `set`'s result depends only on the computed base size against the
maximum size. -/
theorem setOp_snd {K V : Type} [DecidableEq K] (sz : SizeModel K V)
    (hash : K → HashedKey) (now : ℕ) (c : CacheState K V) (key : K)
    (value : V) (ttl : Option ℕ) :
    (setOp sz hash now c key value ttl).2
      = if baseSize sz (Object.new now key value ttl) = 0 then
          .error .zeroValueSize
        else if c.status.exceedsMaxSize
            (baseSize sz (Object.new now key value ttl)) then
          .error .exceedingValueSize
        else .ok () := by
  unfold setOp
  by_cases h0 : baseSize sz (Object.new now key value ttl) = 0
  · simp [h0]
  · rw [if_neg h0, if_neg h0]
    by_cases hx : c.status.exceedsMaxSize
        (baseSize sz (Object.new now key value ttl)) = true
    · simp [hx]
    · simp only [Bool.not_eq_true] at hx
      rw [if_neg (by simp [hx]), if_neg (by simp [hx])]
      rcases hm : mapInsert c.objects (hash key) (Object.new now key value ttl)
        with ⟨objects', oldObject⟩
      rcases oldObject with _ | old <;> simp [hm]

/-- `set` leaves the state untouched when it fails. -/
theorem setOp_error_no_mutation {K V : Type} [DecidableEq K]
    (sz : SizeModel K V) (hash : K → HashedKey) (now : ℕ) (c : CacheState K V)
    (key : K) (value : V) (ttl : Option ℕ) (e : CacheError)
    (herr : (setOp sz hash now c key value ttl).2 = .error e) :
    (setOp sz hash now c key value ttl).1 = c := by
  unfold setOp at herr ⊢
  by_cases h0 : baseSize sz (Object.new now key value ttl) = 0
  · simp [h0]
  · rw [if_neg h0] at herr ⊢
    by_cases hx : c.status.exceedsMaxSize
        (baseSize sz (Object.new now key value ttl)) = true
    · simp [hx]
    · simp only [Bool.not_eq_true] at hx
      rw [if_neg (by simp [hx])] at herr
      rcases hm : mapInsert c.objects (hash key) (Object.new now key value ttl)
        with ⟨objects', oldObject⟩
      rw [hm] at herr
      rcases oldObject with _ | old <;> simp at herr

/-- C3 counterexample.  With a 100-byte cache (`sampleStatus`), keys of
size 4 and a value of size exactly `max_size = 100`, `set` does not
succeed but fails with `ExceedingValueSize` (the computed object size
adds the key and expiry-slot bytes on top of the value); and with a
zero-sized value it does not return `ZeroValueSize` but succeeds. -/
theorem setOp_value_size_counterexample :
    (setOp (constSizes 4 100) modHash 0 ⟨[], sampleStatus⟩ 0 () none).2
        = .error .exceedingValueSize ∧
    (setOp (constSizes 4 0) modHash 0 ⟨[], sampleStatus⟩ 0 () none).2
        = .ok () := ⟨rfl, rfl⟩

/-- C3 (amended).  The quantity `set` validates is the object's base
size (key size + value size + expiry-slot bytes, plus the TTL overhead
when an expiry is set, truncated to `u32`): `ZeroValueSize` exactly
when that base size is 0, `ExceedingValueSize` exactly when it is
nonzero and exceeds `max_size`, success when it equals `max_size`
(fits exactly), and no state mutation on either error. -/
theorem setOp_base_size_spec {K V : Type} [DecidableEq K] (sz : SizeModel K V)
    (hash : K → HashedKey) (now : ℕ) (c : CacheState K V) (key : K)
    (value : V) (ttl : Option ℕ) (hmax : 0 < c.status.maxSize) :
    ((setOp sz hash now c key value ttl).2 = .error .zeroValueSize ↔
      baseSize sz (Object.new now key value ttl) = 0) ∧
    ((setOp sz hash now c key value ttl).2 = .error .exceedingValueSize ↔
      baseSize sz (Object.new now key value ttl) ≠ 0 ∧
        c.status.maxSize < baseSize sz (Object.new now key value ttl)) ∧
    (baseSize sz (Object.new now key value ttl) = c.status.maxSize →
      (setOp sz hash now c key value ttl).2 = .ok ()) ∧
    (∀ e, (setOp sz hash now c key value ttl).2 = .error e →
      (setOp sz hash now c key value ttl).1 = c) := by
  refine ⟨?_, ?_, ?_, fun e herr => setOp_error_no_mutation _ _ _ _ _ _ _ e herr⟩
  · rw [setOp_snd sz hash now c key value ttl]
    by_cases h0 : baseSize sz (Object.new now key value ttl) = 0
    · simp [h0]
    · rw [if_neg h0]
      by_cases hx : c.status.exceedsMaxSize
          (baseSize sz (Object.new now key value ttl)) = true <;>
        simp [hx, h0]
  · rw [setOp_snd sz hash now c key value ttl]
    by_cases h0 : baseSize sz (Object.new now key value ttl) = 0
    · simp [h0]
    · rw [if_neg h0]
      by_cases hx : c.status.exceedsMaxSize
          (baseSize sz (Object.new now key value ttl)) = true
      · rw [if_pos hx]
        unfold AtomicStatus.exceedsMaxSize at hx
        simp only [decide_eq_true_eq] at hx
        simp [h0, hx]
      · rw [if_neg hx]
        unfold AtomicStatus.exceedsMaxSize at hx
        simp only [decide_eq_true_eq, Bool.not_eq_true] at hx
        constructor
        · intro habs
          exact absurd habs (by simp)
        · intro ⟨_, hlt⟩
          exact absurd hlt (by simpa using hx)
  · intro heq
    rw [setOp_snd sz hash now c key value ttl]
    have h0 : baseSize sz (Object.new now key value ttl) ≠ 0 := by
      rw [heq]; omega
    rw [if_neg h0, if_neg (by simp [AtomicStatus.exceedsMaxSize, heq])]

/-- C3 witness: a 100-byte cache with key size 4 and value size 80 —
the object's base size is exactly `4 + 80 + 16 = 100 = max_size` and
the hypotheses hold. -/
theorem setOp_base_size_spec_witness :
    0 < (⟨[], sampleStatus⟩ : CacheState ℕ Unit).status.maxSize ∧
    (baseSize (constSizes 4 80) (Object.new 0 0 () none)
        = (⟨[], sampleStatus⟩ : CacheState ℕ Unit).status.maxSize →
      (setOp (constSizes 4 80) modHash 0 ⟨[], sampleStatus⟩ 0 () none).2
        = .ok ()) :=
  ⟨by decide,
    (setOp_base_size_spec (constSizes 4 80) modHash 0 ⟨[], sampleStatus⟩ 0 ()
      none (by decide)).2.2.1⟩

/-- C10 counterexample.  `set` can return `ZeroValueSize`: for a
zero-sized key and a value whose reported size is `2^32 - 16` bytes,
the `usize`-to-`u32` narrowing in `Object::total_size` wraps the
computed size to 0 and the `base_size == 0` branch fires. -/
theorem setOp_wrap_zero_value_size :
    (setOp (constSizes 0 (2 ^ 32 - 16)) modHash 0
        ⟨[], sampleStatus⟩ 0 () none).2 = .error .zeroValueSize := by
  have hbase : baseSize (constSizes 0 (2 ^ 32 - 16))
      (Object.new 0 (0 : ℕ) () none) = 0 := by
    unfold baseSize Object.totalSize constSizes Object.new EXPIRE_TIME_SIZE
    norm_num
  rw [setOp_snd, hbase]
  rfl

/-- C10 (amended).  `set` never returns `ZeroValueSize` as long as the
untruncated object size — key size + value size +
`mem::size_of::<ExpireTime>()` bytes, plus the TTL overhead — stays
below `2^32`: the computed base size always includes the
`EXPIRE_TIME_SIZE` bytes, so it is positive even for zero-sized keys
and values; only a size wrapping to a multiple of `2^32` can reach the
`base_size == 0` branch. -/
theorem setOp_no_zero_value_size {K V : Type} [DecidableEq K]
    (sz : SizeModel K V) (hash : K → HashedKey) (now : ℕ)
    (c : CacheState K V) (key : K) (value : V) (ttl : Option ℕ)
    (hbound : sz.sizeK key + sz.sizeV value + EXPIRE_TIME_SIZE + getTtlOverhead
      < 2 ^ 32) :
    (setOp sz hash now c key value ttl).2 ≠ .error .zeroValueSize := by
  rw [setOp_snd]
  have hraw : sz.sizeK key + sz.sizeV value + EXPIRE_TIME_SIZE < 2 ^ 32 := by
    have : 0 < getTtlOverhead := by norm_num [getTtlOverhead, EXPIRE_TIME_SIZE]
    omega
  have hbase : baseSize sz (Object.new now key value ttl) ≠ 0 := by
    have hk : (Object.new now key value ttl).key = key := rfl
    have hd : (Object.new now key value ttl).data = value := rfl
    unfold baseSize Object.totalSize
    rw [hk, hd]
    rcases hexp : (Object.new now key value ttl).expiry with _ | e
    · simp only [hexp, Option.isSome_none, Bool.false_eq_true, if_false,
        Nat.add_zero]
      rw [Nat.mod_eq_of_lt hraw, Nat.mod_eq_of_lt hraw]
      have : 0 < EXPIRE_TIME_SIZE := by norm_num [EXPIRE_TIME_SIZE]
      omega
    · simp only [hexp, Option.isSome_some, if_true]
      rw [Nat.mod_eq_of_lt hraw, Nat.mod_eq_of_lt (by omega)]
      have : 0 < EXPIRE_TIME_SIZE := by norm_num [EXPIRE_TIME_SIZE]
      omega
  rw [if_neg hbase]
  by_cases hx : c.status.exceedsMaxSize
      (baseSize sz (Object.new now key value ttl)) = true <;> simp [hx]

/-- C10 witness: a zero-sized key and value stay far below the `2^32`
bound, and `set` indeed does not report `ZeroValueSize`. -/
theorem setOp_no_zero_value_size_witness :
    (constSizes 0 0).sizeK 0 + (constSizes 0 0).sizeV ()
        + EXPIRE_TIME_SIZE + getTtlOverhead < 2 ^ 32 ∧
    (setOp (constSizes 0 0) modHash 0 (⟨[], sampleStatus⟩ : CacheState ℕ Unit)
        0 () none).2 ≠ .error .zeroValueSize :=
  ⟨by norm_num [constSizes, EXPIRE_TIME_SIZE, getTtlOverhead],
    setOp_no_zero_value_size (constSizes 0 0) modHash 0 ⟨[], sampleStatus⟩ 0 ()
      none (by norm_num [constSizes, EXPIRE_TIME_SIZE, getTtlOverhead])⟩

/-! ## C5: hash-collision guard on every keyed operation -/

/-- Subtracting an object's base size via `update_base_used_size`
decrements `base_used_size` by that size. -/
theorem updateBaseUsedSize_neg (st : AtomicStatus) (n : ℕ) :
    (st.updateBaseUsedSize (-(n : ℤ))).baseUsedSize = st.baseUsedSize - n := by
  unfold AtomicStatus.updateBaseUsedSize
  by_cases hn : n = 0
  · subst hn; simp
  · rw [if_neg (by omega)]
    simp

/-- `update_base_used_size` touches only `base_used_size`. -/
theorem updateBaseUsedSize_fields (st : AtomicStatus) (delta : ℤ) :
    (st.updateBaseUsedSize delta).numObjects = st.numObjects ∧
    (st.updateBaseUsedSize delta).maxSize = st.maxSize ∧
    (st.updateBaseUsedSize delta).totalDels = st.totalDels ∧
    (st.updateBaseUsedSize delta).policies = st.policies ∧
    (st.updateBaseUsedSize delta).policyIndex = st.policyIndex := by
  unfold AtomicStatus.updateBaseUsedSize
  split <;> exact ⟨rfl, rfl, rfl, rfl, rfl⟩

/-- C5.  When the hashed slot for key `k` holds an object whose raw
key differs from `k` (a 64-bit hash collision), `get`, `peek`, `size`
and `ttl` return `KeyNotFound`, `has` returns `false`, and `del`
returns `KeyNotFound`, all leaving the stored object, the object map,
`base_used_size` and `num_objects` unchanged: every lookup that
matches a hashed slot additionally verifies raw-key equality. -/
theorem collision_key_not_found {K V : Type} [DecidableEq K]
    (sz : SizeModel K V) (hash : K → HashedKey) (now : ℕ) (c : CacheState K V)
    (key : K) (obj : Object K V)
    (hlook : mapGet? c.objects (hash key) = some obj)
    (hne : obj.key ≠ key) :
    ((get hash now c key).2 = .error .keyNotFound ∧
      (get hash now c key).1.objects = c.objects ∧
      (get hash now c key).1.status.baseUsedSize = c.status.baseUsedSize ∧
      (get hash now c key).1.status.numObjects = c.status.numObjects) ∧
    peek hash now c key = .error .keyNotFound ∧
    has hash now c key = false ∧
    sizeOp sz hash now c key = .error .keyNotFound ∧
    (∀ ttl, (ttlOp sz hash now c key ttl).2 = .error .keyNotFound ∧
      (ttlOp sz hash now c key ttl).1 = c) ∧
    ((del sz hash now c key).2 = .error .keyNotFound ∧
      (del sz hash now c key).1 = c) := by
  have hkm : obj.keyMatches key = false := by
    simp [Object.keyMatches, hne]
  refine ⟨?_, ?_, ?_, ?_, fun ttl => ?_, ?_⟩
  · simp [get, hlook, hkm, AtomicStatus.incrMisses]
  · simp [peek, hlook, hkm]
  · simp [has, hlook, hkm]
  · simp [sizeOp, hlook, hkm]
  · simp [ttlOp, hlook, hkm]
  · simp [del, erase, hlook, hkm]

/-- C5 witness: keys 1 and 5 collide under `modHash`; the map stores
the object for raw key 5 and the operations on raw key 1 all miss. -/
theorem collision_key_not_found_witness :
    mapGet? ([(1, ⟨5, (), none⟩)] : ObjectMap ℕ Unit) (modHash 1)
        = some ⟨5, (), none⟩ ∧
    (5 : ℕ) ≠ 1 ∧
    has modHash 0 (⟨[(1, ⟨5, (), none⟩)], sampleStatus⟩ : CacheState ℕ Unit) 1
      = false :=
  ⟨rfl, by decide,
    (collision_key_not_found (constSizes 1 1) modHash 0
      ⟨[(1, ⟨5, (), none⟩)], sampleStatus⟩ 1 ⟨5, (), none⟩ rfl
      (by decide)).2.2.1⟩

/-! ## C6: deleting a present-but-expired object -/

/-- C6.  For a present, raw-key-matching object: when it is expired at
call time, `del` (through `erase`) still removes it from the map and
decrements both `base_used_size` and `num_objects`, yet returns
`KeyNotFound` and does not increment `total_dels`; when it is not
expired, `del` performs the same removal and accounting, returns `Ok`,
and increments `total_dels`. -/
theorem del_expired_semantics {K V : Type} [DecidableEq K]
    (sz : SizeModel K V) (hash : K → HashedKey) (now : ℕ) (c : CacheState K V)
    (key : K) (obj : Object K V)
    (hlook : mapGet? c.objects (hash key) = some obj)
    (hmatch : obj.key = key) :
    (obj.isExpired now = true →
      (del sz hash now c key).2 = .error .keyNotFound ∧
      (del sz hash now c key).1.objects = mapRemove c.objects (hash key) ∧
      (del sz hash now c key).1.status.baseUsedSize
        = c.status.baseUsedSize - baseSize sz obj ∧
      (del sz hash now c key).1.status.numObjects
        = c.status.numObjects - 1 ∧
      (del sz hash now c key).1.status.totalDels = c.status.totalDels) ∧
    (obj.isExpired now = false →
      (del sz hash now c key).2 = .ok () ∧
      (del sz hash now c key).1.objects = mapRemove c.objects (hash key) ∧
      (del sz hash now c key).1.status.baseUsedSize
        = c.status.baseUsedSize - baseSize sz obj ∧
      (del sz hash now c key).1.status.numObjects
        = c.status.numObjects - 1 ∧
      (del sz hash now c key).1.status.totalDels = c.status.totalDels + 1) := by
  have hkm : obj.keyMatches key = true := by
    simp [Object.keyMatches, hmatch]
  constructor
  · intro hexp
    have hred : del sz hash now c key
        = (⟨mapRemove c.objects (hash key),
            (c.status.updateBaseUsedSize
              (-(baseSize sz obj : ℤ))).decrNumObjects⟩,
          .error .keyNotFound) := by
      simp only [del, erase, hlook, hkm, Bool.not_true, Bool.false_eq_true,
        if_false, hexp, if_true]
    rw [hred]
    refine ⟨rfl, rfl, ?_, ?_, ?_⟩
    · exact updateBaseUsedSize_neg c.status (baseSize sz obj)
    · unfold AtomicStatus.decrNumObjects
      rw [(updateBaseUsedSize_fields c.status _).1]
    · unfold AtomicStatus.decrNumObjects
      exact (updateBaseUsedSize_fields c.status _).2.2.1
  · intro hexp
    have hred : del sz hash now c key
        = (⟨mapRemove c.objects (hash key),
            ((c.status.updateBaseUsedSize
              (-(baseSize sz obj : ℤ))).decrNumObjects).incrDels⟩,
          .ok ()) := by
      simp only [del, erase, hlook, hkm, Bool.not_true, Bool.false_eq_true,
        if_false, hexp]
    rw [hred]
    refine ⟨rfl, rfl, ?_, ?_, ?_⟩
    · exact updateBaseUsedSize_neg c.status (baseSize sz obj)
    · unfold AtomicStatus.incrDels AtomicStatus.decrNumObjects
      rw [(updateBaseUsedSize_fields c.status _).1]
    · unfold AtomicStatus.incrDels AtomicStatus.decrNumObjects
      rw [(updateBaseUsedSize_fields c.status _).2.2.1]

/-- C6 witness: at time 5, the object stored under key 1 expired at
time 3; `del` reports `KeyNotFound` yet removes it and performs the
accounting. -/
theorem del_expired_semantics_witness :
    mapGet? ([(1, ⟨1, (), some 3⟩)] : ObjectMap ℕ Unit) (modHash 1)
        = some ⟨1, (), some 3⟩ ∧
    ((⟨1, (), some 3⟩ : Object ℕ Unit).key = 1) ∧
    ((⟨1, (), some 3⟩ : Object ℕ Unit).isExpired 5 = true →
      (del (constSizes 1 1) modHash 5
          (⟨[(1, ⟨1, (), some 3⟩)], sampleStatus⟩ : CacheState ℕ Unit) 1).2
        = .error .keyNotFound ∧
      (del (constSizes 1 1) modHash 5
          (⟨[(1, ⟨1, (), some 3⟩)], sampleStatus⟩ : CacheState ℕ Unit) 1).1.objects
        = mapRemove [(1, ⟨1, (), some 3⟩)] (modHash 1) ∧
      (del (constSizes 1 1) modHash 5
          (⟨[(1, ⟨1, (), some 3⟩)], sampleStatus⟩ : CacheState ℕ Unit) 1).1.status.baseUsedSize
        = sampleStatus.baseUsedSize - baseSize (constSizes 1 1) ⟨1, (), some 3⟩ ∧
      (del (constSizes 1 1) modHash 5
          (⟨[(1, ⟨1, (), some 3⟩)], sampleStatus⟩ : CacheState ℕ Unit) 1).1.status.numObjects
        = sampleStatus.numObjects - 1 ∧
      (del (constSizes 1 1) modHash 5
          (⟨[(1, ⟨1, (), some 3⟩)], sampleStatus⟩ : CacheState ℕ Unit) 1).1.status.totalDels
        = sampleStatus.totalDels) :=
  ⟨rfl, rfl,
    (del_expired_semantics (constSizes 1 1) modHash 5
      ⟨[(1, ⟨1, (), some 3⟩)], sampleStatus⟩ 1 ⟨1, (), some 3⟩ rfl rfl).1⟩

/-! ## C8: the auto-policy selector -/

/-- `optimalCmp` returns `lt` exactly on a strict decrease of the
lexicographic `(miss ratio, overhead)` key. -/
theorem optimalCmp_lt_iff (a b : MiniStackStats) :
    optimalCmp a b = .lt ↔ selectionKey a < selectionKey b := by
  unfold optimalCmp cmpQ cmpOverhead selectionKey
  rw [Prod.Lex.lt_iff]
  by_cases h1 : missRatio a < missRatio b
  · simp [h1]
  · by_cases h2 : missRatio b < missRatio a
    · have hne : missRatio a ≠ missRatio b := ne_of_gt h2
      simp [h1, h2, hne]
    · have he : missRatio a = missRatio b :=
        le_antisymm (not_lt.mp h2) (not_lt.mp h1)
      by_cases h3 : getPolicyOverhead a.policy < getPolicyOverhead b.policy <;>
        simp [h1, h2, h3, he]

/-- `selectionKey` comparisons unfold to miss-ratio comparison with
overhead tie-break. -/
theorem selectionKey_le_iff (a b : MiniStackStats) :
    selectionKey a ≤ selectionKey b ↔
      missRatio a < missRatio b ∨ (missRatio a = missRatio b ∧
        getPolicyOverhead a.policy ≤ getPolicyOverhead b.policy) := by
  unfold selectionKey
  exact Prod.Lex.le_iff _ _

/-- The fold inside `minBy?` returns an element of the candidates that
is minimal for the selection key. -/
theorem minBy_foldl_spec :
    ∀ (xs : List MiniStackStats) (x : MiniStackStats),
      (xs.foldl (fun best y => if optimalCmp y best = .lt then y else best) x
          = x ∨
        xs.foldl (fun best y => if optimalCmp y best = .lt then y else best) x
          ∈ xs) ∧
      selectionKey
          (xs.foldl (fun best y => if optimalCmp y best = .lt then y else best)
            x)
        ≤ selectionKey x ∧
      ∀ t ∈ xs,
        selectionKey
            (xs.foldl
              (fun best y => if optimalCmp y best = .lt then y else best) x)
          ≤ selectionKey t := by
  intro xs
  induction xs with
  | nil => exact fun x => ⟨Or.inl rfl, le_refl _, by simp⟩
  | cons y ys ih =>
    intro x
    rw [List.foldl_cons]
    obtain ⟨hmem, hlex, hall⟩ := ih (if optimalCmp y x = .lt then y else x)
    have hx' : selectionKey (if optimalCmp y x = .lt then y else x)
        ≤ selectionKey x := by
      by_cases hc : optimalCmp y x = .lt
      · rw [if_pos hc]
        exact ((optimalCmp_lt_iff y x).mp hc).le
      · rw [if_neg hc]
    have hy' : selectionKey (if optimalCmp y x = .lt then y else x)
        ≤ selectionKey y := by
      by_cases hc : optimalCmp y x = .lt
      · rw [if_pos hc]
      · rw [if_neg hc]
        exact le_of_not_lt fun hlt =>
          hc ((optimalCmp_lt_iff y x).mpr hlt)
    refine ⟨?_, le_trans hlex hx', fun t ht => ?_⟩
    · rcases hmem with h | h
      · rw [h]
        by_cases hc : optimalCmp y x = .lt
        · rw [if_pos hc]
          exact Or.inr (List.mem_cons_self y ys)
        · rw [if_neg hc]
          exact Or.inl rfl
      · exact Or.inr (List.mem_cons_of_mem y h)
    · rcases List.mem_cons.mp ht with h | h
      · subst h
        exact le_trans hlex hy'
      · exact hall t h

/-- C8.  Whenever the mini-stack collection contains a stack `cs` for
the current policy (the first such stack fixing the current miss
ratio), `get_optimal_policy` returns `Some p` only for the policy of a
mini-stack of minimal miss ratio — overhead-minimal among the stacks
tied at that ratio — whose miss ratio strictly beats the current
policy's; and it returns `None` precisely when no mini-stack has a
strictly smaller miss ratio than the current policy's (so no switch is
triggered when the current policy is already at least as good). -/
theorem getOptimalPolicy_spec (miniStacks : List MiniStackStats)
    (currentPolicy : PaperPolicy) (cs : MiniStackStats)
    (hfind : miniStacks.find? (fun ms => ms.policy = currentPolicy) = some cs) :
    (∀ p, getOptimalPolicy miniStacks currentPolicy = some p →
      ∃ s ∈ miniStacks, s.policy = p ∧ missRatio s < missRatio cs ∧
        (∀ t ∈ miniStacks, missRatio s ≤ missRatio t) ∧
        (∀ t ∈ miniStacks, missRatio t = missRatio s →
          getPolicyOverhead s.policy ≤ getPolicyOverhead t.policy)) ∧
    (getOptimalPolicy miniStacks currentPolicy = none →
      ∀ t ∈ miniStacks, missRatio cs ≤ missRatio t) := by
  rcases miniStacks with _ | ⟨x, xs⟩
  · simp at hfind
  · obtain ⟨hmem, -, hall⟩ := minBy_foldl_spec xs x
    have hmem' : xs.foldl
        (fun best y => if optimalCmp y best = .lt then y else best) x
        ∈ x :: xs := by
      rcases hmem with h | h
      · rw [h]; exact List.mem_cons_self x xs
      · exact List.mem_cons_of_mem x h
    have hall' : ∀ t ∈ x :: xs,
        selectionKey (xs.foldl
          (fun best y => if optimalCmp y best = .lt then y else best) x)
          ≤ selectionKey t := by
      intro t ht
      rcases List.mem_cons.mp ht with h | h
      · subst h
        exact (minBy_foldl_spec xs t).2.1
      · exact hall t h
    have hG : getOptimalPolicy (x :: xs) currentPolicy
        = if missRatio (xs.foldl
            (fun best y => if optimalCmp y best = .lt then y else best) x)
            < missRatio cs then
          some (xs.foldl
            (fun best y => if optimalCmp y best = .lt then y else best)
            x).policy
        else none := by
      unfold getOptimalPolicy
      rw [hfind]
      rfl
    rw [hG]
    constructor
    · intro p hp
      by_cases hlt : missRatio (xs.foldl
          (fun best y => if optimalCmp y best = .lt then y else best) x)
          < missRatio cs
      · rw [if_pos hlt] at hp
        refine ⟨xs.foldl
          (fun best y => if optimalCmp y best = .lt then y else best) x,
          hmem', by simpa using hp, hlt, fun t ht => ?_, fun t ht he => ?_⟩
        · rcases (selectionKey_le_iff _ _).mp (hall' t ht) with h | h
          · exact h.le
          · exact h.1.le
        · rcases (selectionKey_le_iff _ _).mp (hall' t ht) with h | h
          · exact absurd he (ne_of_gt h)
          · exact h.2
      · rw [if_neg hlt] at hp
        exact absurd hp (by simp)
    · intro hp t ht
      by_cases hlt : missRatio (xs.foldl
          (fun best y => if optimalCmp y best = .lt then y else best) x)
          < missRatio cs
      · rw [if_pos hlt] at hp
        exact absurd hp (by simp)
      · refine le_trans (not_lt.mp hlt) ?_
        rcases (selectionKey_le_iff _ _).mp (hall' t ht) with h | h
        · exact h.le
        · exact h.1.le

/-- C8 witness: with `Lfu` current at miss ratio `1/2` and `Lru`/`Mru`
tied at `1/5`, the selector proposes the tie's overhead-minimal
representative. -/
theorem getOptimalPolicy_spec_witness :
    sampleMiniStacks.find? (fun ms => ms.policy = PaperPolicy.lfu)
        = some ⟨.lfu, 10, 5⟩ ∧
    ∀ p, getOptimalPolicy sampleMiniStacks .lfu = some p →
      ∃ s ∈ sampleMiniStacks, s.policy = p ∧
        missRatio s < missRatio ⟨.lfu, 10, 5⟩ ∧
        (∀ t ∈ sampleMiniStacks, missRatio s ≤ missRatio t) ∧
        (∀ t ∈ sampleMiniStacks, missRatio t = missRatio s →
          getPolicyOverhead s.policy ≤ getPolicyOverhead t.policy) :=
  ⟨by decide,
    (getOptimalPolicy_spec sampleMiniStacks .lfu ⟨.lfu, 10, 5⟩ (by decide)).1⟩

/-! ## C1: the eviction pass restores the size bound -/

/-- Removing a stored object drops its base size from the sum and one
entry from the map. -/
theorem mapRemove_of_get {K V : Type} (sz : SizeModel K V) (m : ObjectMap K V)
    (h : HashedKey) (o : Object K V) (hlook : mapGet? m h = some o) :
    sumBaseSizes sz (mapRemove m h) + baseSize sz o = sumBaseSizes sz m ∧
    (mapRemove m h).length + 1 = m.length := by
  induction m with
  | nil => simp [mapGet?] at hlook
  | cons e rest ih =>
    obtain ⟨k, v⟩ := e
    by_cases he : k = h
    · have hv : v = o := by
        simpa [mapGet?, List.find?_cons, he] using hlook
      have hrem : mapRemove ((k, v) :: rest) h = rest := by
        simp [mapRemove, he]
      constructor
      · rw [hrem]
        simp only [sumBaseSizes, List.map_cons, List.sum_cons]
        rw [hv]
        omega
      · rw [hrem]
        simp
    · have hlook' : mapGet? rest h = some o := by
        simpa [mapGet?, List.find?_cons, he] using hlook
      obtain ⟨hsum, hlen⟩ := ih hlook'
      constructor
      · simp only [mapRemove, if_neg he, sumBaseSizes, List.map_cons,
          List.sum_cons]
        simp only [sumBaseSizes] at hsum
        omega
      · simp only [mapRemove, if_neg he, List.length_cons]
        omega

/-- A removal preserves the accounting invariant. -/
theorem erase_removed_inv {K V : Type} (sz : SizeModel K V)
    (m : ObjectMap K V) (st : AtomicStatus) (h : HashedKey) (o : Object K V)
    (hinv : StatusInv sz m st) (hlook : mapGet? m h = some o) :
    StatusInv sz (mapRemove m h)
      ((st.updateBaseUsedSize (-(baseSize sz o : ℤ))).decrNumObjects) := by
  obtain ⟨hsum, hlen⟩ := mapRemove_of_get sz m h o hlook
  obtain ⟨hbase, hnum⟩ := hinv
  constructor
  · show (st.updateBaseUsedSize (-(baseSize sz o : ℤ))).baseUsedSize = _
    rw [updateBaseUsedSize_neg]
    omega
  · show (st.updateBaseUsedSize (-(baseSize sz o : ℤ))).numObjects - 1 = _
    rw [(updateBaseUsedSize_fields st _).1]
    omega

/-- `erase` with a hashed key: either the key is absent and nothing
changes, or the entry is removed and the status adjusted. -/
theorem erase_hashed_state {K V : Type} [DecidableEq K] (sz : SizeModel K V)
    (now : ℕ) (m : ObjectMap K V) (st : AtomicStatus) (key : HashedKey) :
    (mapGet? m key = none ∧
      (erase sz now m st (some (.hashed key))).1 = m ∧
      (erase sz now m st (some (.hashed key))).2.1 = st) ∨
    (∃ o, mapGet? m key = some o ∧
      (erase sz now m st (some (.hashed key))).1 = mapRemove m key ∧
      (erase sz now m st (some (.hashed key))).2.1
        = (st.updateBaseUsedSize (-(baseSize sz o : ℤ))).decrNumObjects) := by
  rcases hlook : mapGet? m key with _ | o
  · left
    refine ⟨rfl, ?_, ?_⟩ <;> simp [erase, hlook]
  · right
    refine ⟨o, rfl, ?_, ?_⟩ <;>
      (by_cases hexp : o.isExpired now = true <;> simp [erase, hlook, hexp])

/-- `erase` with no key on a non-empty map removes the head entry. -/
theorem erase_none_state {K V : Type} [DecidableEq K] (sz : SizeModel K V)
    (now : ℕ) (e : HashedKey × Object K V) (rest : ObjectMap K V)
    (st : AtomicStatus) :
    (erase sz now (e :: rest) st none).1 = rest ∧
    (erase sz now (e :: rest) st none).2.1
      = (st.updateBaseUsedSize (-(baseSize sz e.2 : ℤ))).decrNumObjects := by
  have hlook : mapGet? (e :: rest) e.1 = some e.2 := by
    simp [mapGet?]
  constructor <;>
    (by_cases hexp : e.2.isExpired now = true <;>
      simp [erase, hlook, hexp, mapRemove])

/-- The eviction loop, given fuel exceeding `|stack| + |map|`,
terminates with the invariant intact and the used size within the
maximum. -/
theorem applyEvictions_bound_aux {K V : Type} [DecidableEq K]
    (sz : SizeModel K V) (now : ℕ) (policy : PaperPolicy) :
    ∀ (fuel : ℕ) (stack : List HashedKey) (m : ObjectMap K V)
      (st : AtomicStatus) (events : List StackEvent),
      StatusInv sz m st → stack.length + m.length < fuel →
      ∃ stack' m' st' events',
        applyEvictions sz now policy fuel stack m st events
          = some (stack', m', st', events') ∧
        StatusInv sz m' st' ∧ st'.maxSize = st.maxSize ∧
        st'.usedSize policy ≤ st'.maxSize := by
  intro fuel
  induction fuel with
  | zero =>
    intro stack m st events hinv hfuel
    omega
  | succ fuel ih =>
    intro stack m st events hinv hfuel
    by_cases hguard : st.maxSize < st.usedSize policy
    · rcases stack with _ | ⟨key, rest⟩
      · rcases hm : m with _ | ⟨e, mrest⟩
        · exfalso
          obtain ⟨hbase, hnum⟩ := hinv
          rw [hm] at hbase hnum
          simp [sumBaseSizes] at hbase hnum
          have : st.usedSize policy = 0 := by
            unfold AtomicStatus.usedSize
            rw [hbase, hnum]
            ring
          omega
        · subst hm
          obtain ⟨h1, h2⟩ := erase_none_state sz now e mrest st
          have hinv' : StatusInv sz (erase sz now (e :: mrest) st none).1
              (erase sz now (e :: mrest) st none).2.1 := by
            rw [h1, h2]
            have := erase_removed_inv sz (e :: mrest) st e.1 e.2 hinv
              (by simp [mapGet?])
            simpa [mapRemove] using this
          obtain ⟨stack', m', st', events', hrun, hinv'', hmax, hle⟩ :=
            ih [] (erase sz now (e :: mrest) st none).1
              (erase sz now (e :: mrest) st none).2.1 _ hinv'
              (by rw [h1]; simp at hfuel ⊢; omega)
          refine ⟨stack', m', st', events', ?_, hinv'', ?_, hle⟩
          · simp only [applyEvictions]
            rw [if_pos hguard]
            exact hrun
          · rw [hmax, h2]
            show (st.updateBaseUsedSize _).maxSize = st.maxSize
            exact (updateBaseUsedSize_fields st _).2.1
      · rcases erase_hashed_state sz now m st key with
          ⟨hnone, h1, h2⟩ | ⟨o, hlook, h1, h2⟩
        · obtain ⟨stack', m', st', events', hrun, hinv'', hmax, hle⟩ :=
            ih rest (erase sz now m st (some (.hashed key))).1
              (erase sz now m st (some (.hashed key))).2.1 _
              (by rw [h1, h2]; exact hinv)
              (by rw [h1]; simp at hfuel ⊢; omega)
          refine ⟨stack', m', st', events', ?_, hinv'', ?_, hle⟩
          · simp only [applyEvictions]
            rw [if_pos hguard]
            exact hrun
          · rw [hmax, h2]
        · have hlen := (mapRemove_of_get sz m key o hlook).2
          obtain ⟨stack', m', st', events', hrun, hinv'', hmax, hle⟩ :=
            ih rest (erase sz now m st (some (.hashed key))).1
              (erase sz now m st (some (.hashed key))).2.1 _
              (by rw [h1, h2]; exact erase_removed_inv sz m st key o hinv hlook)
              (by rw [h1]; simp at hfuel ⊢; omega)
          refine ⟨stack', m', st', events', ?_, hinv'', ?_, hle⟩
          · simp only [applyEvictions]
            rw [if_pos hguard]
            exact hrun
          · rw [hmax, h2]
            show (st.updateBaseUsedSize _).maxSize = st.maxSize
            exact (updateBaseUsedSize_fields st _).2.1
    · refine ⟨stack, m, st, events, ?_, hinv, rfl, not_lt.mp hguard⟩
      simp only [applyEvictions]
      rw [if_neg hguard]

/-- C1.  From any reachable state (one satisfying the accounting
invariant), the policy worker's eviction pass in non-interim mode —
popping the active stack and erasing, falling back to `erase` with no
key (an arbitrary remaining map entry) when the stack runs dry —
terminates within `|stack| + |map| + 1` iterations and returns with
`used_size(p) ≤ max_size`: every iteration under the bound removes a
stack key or a map entry, so the loop makes progress and the size
bound is restored. -/
theorem applyEvictions_restores_bound {K V : Type} [DecidableEq K]
    (sz : SizeModel K V) (now : ℕ) (policy : PaperPolicy)
    (stack : List HashedKey) (m : ObjectMap K V) (st : AtomicStatus)
    (events : List StackEvent) (hinv : StatusInv sz m st) :
    ∃ stack' m' st' events',
      applyEvictions sz now policy (stack.length + m.length + 1)
          stack m st events
        = some (stack', m', st', events') ∧
      StatusInv sz m' st' ∧ st'.maxSize = st.maxSize ∧
      st'.usedSize policy ≤ st'.maxSize :=
  applyEvictions_bound_aux sz now policy (stack.length + m.length + 1)
    stack m st events hinv (by omega)

/-- C1 witness: one oversized object (base size 120 in a 100-byte
cache) with an exhausted stack forces the `erase(None)` fallback. -/
theorem applyEvictions_restores_bound_witness :
    StatusInv (constSizes 4 100) ([(5, ⟨5, (), none⟩)] : ObjectMap ℕ Unit)
      overfullStatus ∧
    ∃ stack' m' st' events',
      applyEvictions (constSizes 4 100) 0 .lfu
          (List.length ([] : List HashedKey)
            + List.length ([(5, ⟨5, (), none⟩)] : ObjectMap ℕ Unit) + 1)
          [] [(5, ⟨5, (), none⟩)] overfullStatus []
        = some (stack', m', st', events') ∧
      StatusInv (constSizes 4 100) m' st' ∧
      st'.maxSize = overfullStatus.maxSize ∧
      st'.usedSize .lfu ≤ st'.maxSize :=
  ⟨⟨by decide, by decide⟩,
    applyEvictions_restores_bound (constSizes 4 100) 0 .lfu []
      [(5, ⟨5, (), none⟩)] overfullStatus [] ⟨by decide, by decide⟩⟩

end PaperCache
